import Mathlib

/-!
# discord_cli: configuration resolution and setup hooks of `cmd/root.go`

A shallow embedding of `src/cmd/root.go`.  The file is glue between three
libraries, so the embedding has three layers:

* the package globals `config` and `client` and the flags registered by
  `init` (pflag: every flag owns a pointer into `config`);
* the part of viper the file drives: the config-file settings written by
  `initConfig` and the lookup order of `viper.Get`;
* the part of cobra the file drives: the command tree, the rule that picks the
  setup hook of an invocation, and `callPersistentPreRun`.

Whatever the operating system decides (environment, home directory, files on
disk) is a field of `World`.
-/

namespace DiscordCli

/-! ## Data model -/

/-- The constant `CONFIG_FILENAME` (root.go:18). -/
def CONFIG_FILENAME : String := ".discord_cli"

/-- The struct `Configuration` (root.go:21-28).  The three identifiers are
`uint64` in the source (`discord.AppID`, `discord.GuildID`, `discord.UserID`);
every write into them goes through `Target.store`, which keeps them below
`2 ^ 64`. -/
structure Configuration where
  ConfigFile : String
  DiscordToken : String
  ApplicationID : Nat
  GuildID : Nat
  UserID : Nat
deriving DecidableEq, Repr

/-- The zero value of `Configuration`: the state of `var config Configuration`
(root.go:32) before `init` runs. -/
def Configuration.zero : Configuration :=
  { ConfigFile := "", DiscordToken := "", ApplicationID := 0, GuildID := 0, UserID := 0 }

/-- A `*api.Client` as far as this file can tell clients apart: by the token
handed to `api.NewClient`. -/
structure Client where
  token : String
deriving DecidableEq, Repr

/-- A scalar as viper sees it.  Flag values and environment values reach viper
as text, a YAML file supplies text or numbers.  The decimal text of a `uint64`
flag (`strconv.FormatUint` in pflag, parsed back by `cast.ToUint64`) is kept
as the number it denotes. -/
inductive Val where
  | str (s : String)
  | uint (n : Nat)
deriving DecidableEq, Repr

/-- The string fields of `config` a flag can point to. -/
inductive StrField where
  | ConfigFile
  | DiscordToken
deriving DecidableEq, Repr

/-- The `uint64` fields of `config` a flag can point to (the source casts
their addresses to `*uint64`). -/
inductive U64Field where
  | ApplicationID
  | GuildID
  | UserID
deriving DecidableEq, Repr

/-- The pointer a flag is registered with: `&config.F` for one field `F`. -/
inductive Target where
  | str (f : StrField)
  | u64 (f : U64Field)
deriving DecidableEq, Repr

/-- Dereference a flag's pointer: the current content of the field. -/
def Target.load (c : Configuration) : Target → Val
  | .str .ConfigFile => .str c.ConfigFile
  | .str .DiscordToken => .str c.DiscordToken
  | .u64 .ApplicationID => .uint c.ApplicationID
  | .u64 .GuildID => .uint c.GuildID
  | .u64 .UserID => .uint c.UserID

/-- Write through a flag's pointer, as pflag's `Set` does after parsing the
argument: a string flag takes any text; a `uint64` flag takes a number below
`2 ^ 64` and rejects everything else (`strconv.ParseUint` fails, cobra reports
the error and runs nothing). -/
def Target.store (c : Configuration) : Target → Val → Option Configuration
  | .str .ConfigFile, .str s => some { c with ConfigFile := s }
  | .str .DiscordToken, .str s => some { c with DiscordToken := s }
  | .u64 .ApplicationID, .uint n => if n < 2 ^ 64 then some { c with ApplicationID := n } else none
  | .u64 .GuildID, .uint n => if n < 2 ^ 64 then some { c with GuildID := n } else none
  | .u64 .UserID, .uint n => if n < 2 ^ 64 then some { c with UserID := n } else none
  | _, _ => none

/-- A registered pflag flag: its long name, its one-letter shorthand (empty
when it has none), the pointer it writes through and the default it was
registered with. -/
structure Flag where
  name : String
  shorthand : String
  target : Target
  defValue : Val
deriving DecidableEq, Repr

/-! ## viper -/

/-- The fields of the global viper instance that `root.go` reads or writes.
`pflags` is the map filled by `BindPFlags`, `config` the map filled by
`ReadInConfig`. -/
structure Viper where
  configFile : String
  configPaths : List String
  configName : String
  configType : String
  automaticEnvApplied : Bool
  config : List (String × Val)
  pflags : List (String × Flag)
deriving DecidableEq, Repr

/-- The instance `viper.New()` returns: config name `config`, everything else
empty. -/
def Viper.new : Viper :=
  { configFile := "", configPaths := [], configName := "config", configType := "",
    automaticEnvApplied := false, config := [], pflags := [] }

/-- What the process observes of its surroundings.
* `lookupEnv`: `os.LookupEnv`.
* `userHomeDir`: `os.UserHomeDir`, an error text or the directory.
* `absPathify`: viper's `absPathify` (expands `$HOME` and makes the path
  absolute against the working directory).
* `readInConfig`: the file-system half of `viper.ReadInConfig`.  Given the
  settings `configFile`, `configPaths`, `configName`, `configType` it either
  fails (no file found, unsupported type, unreadable, not parseable) or yields
  the path of the file used and its top-level keys.
* `parseUint`: `cast.ToUint64` on text (0 when the text is not a number). -/
structure World where
  lookupEnv : String → Option String
  userHomeDir : Except String String
  absPathify : String → String
  readInConfig : String → List String → String → String → Except String (String × List (String × Val))
  parseUint : String → Nat

/-- Effects the claims speak about, in the order they happen. -/
inductive Event where
  | stderr (line : String)
  | readInConfig
  | validated
  | fatal (msg : String)
  | newClient (token : String)
  | childSetup (id : Nat)
deriving DecidableEq, Repr

/-- The package-level state of `cmd` together with the libraries' globals:
`config` and `client` (root.go:31-34), the persistent flag set of `rootCmd`
with the names of the flags whose `Changed` bit is set, the viper instance,
and the effects so far. -/
structure Proc where
  config : Configuration
  flags : List Flag
  changed : List String
  viper : Viper
  client : Option Client
  trace : List Event
deriving DecidableEq, Repr

/-- How a step of the program ends: it returns, or the process exits with a
status (`os.Exit` inside `cobra.CheckErr` and `logrus.Fatal`). -/
inductive Outcome where
  | done (p : Proc)
  | exit (code : Nat) (p : Proc)
deriving DecidableEq, Repr

/-- Sequencing: what follows a step runs only if the step returned. -/
def Outcome.andThen (o : Outcome) (k : Proc → Outcome) : Outcome :=
  match o with
  | .done p => k p
  | .exit code p => .exit code p

/-- The state a step ended in. -/
def Outcome.proc : Outcome → Proc
  | .done p => p
  | .exit _ p => p

/-! ## `init` (root.go:71-84) -/

/-- The flag registration `StringVarP`, `Uint64VarP`, `Uint64Var`, `StringVar`
of pflag: the default is written through the pointer and the flag is appended
to the flag set. -/
def Proc.registerFlag (p : Proc) (target : Target) (name shorthand : String) (value : Val) : Proc :=
  { p with
    config := (target.store p.config value).getD p.config
    flags := p.flags ++ [{ name := name, shorthand := shorthand, target := target, defValue := value }] }

/-- The call `viper.BindPFlags(rootCmd.PersistentFlags())`: every flag
registered so far is bound under its name. -/
def Proc.BindPFlags (p : Proc) : Proc :=
  { p with viper := { p.viper with pflags := p.viper.pflags ++ p.flags.map (fun f => (f.name, f)) } }

/-- The state before `init`: zero globals, an empty flag set, a fresh viper. -/
def Proc.start : Proc :=
  { config := Configuration.zero, flags := [], changed := [], viper := Viper.new,
    client := none, trace := [] }

/-- The function `init` (root.go:71-84), line by line.  `user_id` is
registered with the address of `config.GuildID` (root.go:79). -/
def init : Proc :=
  let p := Proc.start
  let p := p.registerFlag (.str .DiscordToken) "discord_token" "t" (.str "")
  let p := p.registerFlag (.u64 .ApplicationID) "application_id" "a" (.uint 0)
  let p := p.registerFlag (.u64 .GuildID) "guild_id" "" (.uint 0)
  let p := p.registerFlag (.u64 .GuildID) "user_id" "u" (.uint 0)
  let p := p.BindPFlags
  let p := p.registerFlag (.str .ConfigFile) "config" "" (.str "")
  p

/-! ## Flag parsing (pflag, run by cobra before any hook) -/

/-- One flag occurrence on the command line: `--key value` or, with `short`,
`-key value`. -/
structure Arg where
  short : Bool
  key : String
  value : Val
deriving DecidableEq, Repr

/-- The flag an occurrence names: by long name, or by shorthand. -/
def findFlag (flags : List Flag) (a : Arg) : Option Flag :=
  flags.find? (fun f => if a.short then f.shorthand != "" && f.shorthand == a.key else f.name == a.key)

/-- Apply one occurrence: write the value through the flag's pointer and set
its `Changed` bit.  `none` is a parse error (unknown flag, bad value). -/
def Proc.setArg (p : Proc) (a : Arg) : Option Proc :=
  match findFlag p.flags a with
  | none => none
  | some f =>
    match f.target.store p.config a.value with
    | none => none
    | some c => some { p with config := c, changed := f.name :: p.changed }

/-- Apply the occurrences left to right; the first error stops the parse. -/
def Proc.parseFlags (p : Proc) : List Arg → Option Proc
  | [] => some p
  | a :: rest =>
    match p.setArg a with
    | none => none
    | some q => q.parseFlags rest

/-! ## viper: settings and lookup -/

/-- ASCII upper-casing, character by character (`strings.ToUpper` on the keys
used here). -/
def upper (s : String) : String := String.mk (s.data.map Char.toUpper)

/-- ASCII lower-casing, character by character (`strings.ToLower`). -/
def lower (s : String) : String := String.mk (s.data.map Char.toLower)

/-- The method `SetConfigFile`: an empty path is ignored. -/
def Viper.SetConfigFile (v : Viper) (path : String) : Viper :=
  if path ≠ "" then { v with configFile := path } else v

/-- The method `AddConfigPath`: an empty path is ignored, the path is made
absolute, and a path already in the list is not added again. -/
def Viper.AddConfigPath (w : World) (v : Viper) (path : String) : Viper :=
  if path ≠ "" then
    let absin := w.absPathify path
    if absin ∈ v.configPaths then v else { v with configPaths := v.configPaths ++ [absin] }
  else v

/-- The method `SetConfigType`: an empty type is ignored. -/
def Viper.SetConfigType (v : Viper) (t : String) : Viper :=
  if t ≠ "" then { v with configType := t } else v

/-- The method `SetConfigName`: an empty name is ignored; a new name clears
the cached config file. -/
def Viper.SetConfigName (v : Viper) (name : String) : Viper :=
  if name ≠ "" then { v with configName := name, configFile := "" } else v

/-- The method `AutomaticEnv`. -/
def Viper.AutomaticEnv (v : Viper) : Viper :=
  { v with automaticEnvApplied := true }

/-- The method `ReadInConfig`: on success the file used is cached in
`configFile` and the parsed keys replace `config`; on failure the error is
returned (the caller in `root.go` looks at nothing else then). -/
def Viper.ReadInConfig (w : World) (v : Viper) : Except String Viper :=
  match w.readInConfig v.configFile v.configPaths v.configName v.configType with
  | .error e => .error e
  | .ok (file, keys) => .ok { v with configFile := file, config := keys }

/-- The method `ConfigFileUsed`. -/
def Viper.ConfigFileUsed (v : Viper) : String := v.configFile

/-- The helper `getEnv` of viper: a variable that is unset, or set to the empty
string while `AllowEmptyEnv` is off (it is never switched on here), counts as
absent. -/
def getEnv (w : World) (key : String) : Option String :=
  match w.lookupEnv key with
  | some val => if val ≠ "" then some val else none
  | none => none

/-- The lookup `viper.Get` performs (`find` with `flagDefault = true`), for the
sources this program uses: a bound flag whose `Changed` bit is set; then, under
`AutomaticEnv`, the environment variable named by the upper-cased key; then the
config file; last the current value of a bound flag that was not changed.  A
flag's value is read through its pointer at lookup time. -/
def find (w : World) (p : Proc) (key : String) : Option Val :=
  let lcaseKey := lower key
  let flag := p.viper.pflags.lookup lcaseKey
  match flag.filter (fun f => p.changed.contains f.name) with
  | some f => some (f.target.load p.config)
  | none =>
    match (if p.viper.automaticEnvApplied then getEnv w (upper lcaseKey) else none) with
    | some val => some (.str val)
    | none =>
      match p.viper.config.lookup lcaseKey with
      | some val => some val
      | none => flag.map (fun f => f.target.load p.config)

/-- The call `viper.GetString(key)`: `cast.ToString` of what `find` returns,
the empty string when nothing is found. -/
def GetString (w : World) (p : Proc) (key : String) : String :=
  match find w p key with
  | some (.str s) => s
  | some (.uint n) => toString n
  | none => ""

/-- The call `viper.GetUint64(key)`: `cast.ToUint64` of what `find` returns,
0 when nothing is found. -/
def GetUint64 (w : World) (p : Proc) (key : String) : Nat :=
  match find w p key with
  | some (.uint n) => n % 2 ^ 64
  | some (.str s) => w.parseUint s % 2 ^ 64
  | none => 0

/-- The method `IsValid` of `discord.AppID`: neither 0 nor the null snowflake
`^uint64(0)`. -/
def IsValid (s : Nat) : Bool := s != 0 && s != 2 ^ 64 - 1

/-! ## `initConfig` (root.go:87-110) -/

/-- The first block of `initConfig` (root.go:88-101): where the config file is
looked for.  `cobra.CheckErr` on a failed home-directory lookup prints
`Error: …` to standard error and exits with status 1. -/
def configSource (w : World) (p : Proc) : Outcome :=
  if p.config.ConfigFile ≠ "" then
    .done { p with viper := p.viper.SetConfigFile p.config.ConfigFile }
  else
    match w.userHomeDir with
    | .error err => .exit 1 { p with trace := p.trace ++ [Event.stderr ("Error: " ++ err)] }
    | .ok home =>
      let v := p.viper.AddConfigPath w home
      let v := v.AddConfigPath w "."
      let v := v.SetConfigType "yaml"
      let v := v.SetConfigName CONFIG_FILENAME
      .done { p with viper := v }

/-- The second block of `initConfig` (root.go:103-109): `AutomaticEnv`, then
`ReadInConfig`; only on success the file used is stored in `config.ConfigFile`
and reported on standard error. -/
def readConfig (w : World) (p : Proc) : Outcome :=
  let p := { p with viper := p.viper.AutomaticEnv }
  let p := { p with trace := p.trace ++ [Event.readInConfig] }
  match p.viper.ReadInConfig w with
  | .ok v =>
    let p := { p with viper := v }
    let p := { p with config := { p.config with ConfigFile := p.viper.ConfigFileUsed } }
    .done { p with trace := p.trace ++ [Event.stderr ("Using config file: " ++ p.config.ConfigFile)] }
  | .error _ => .done p

/-- The function `initConfig` (root.go:87-110). -/
def initConfig (w : World) (p : Proc) : Outcome :=
  (configSource w p).andThen (readConfig w)

/-! ## cobra: commands and setup hooks -/

/-- The `PersistentPreRun` closures a command of this program carries: the one
of `rootCmd` (root.go:52-61), or one of a child command, which by the
convention of root.go:36-37 calls `callPersistentPreRun` first and then does
its own setup (kept as an event). -/
inductive Hook where
  | root
  | child (id : Nat)
deriving DecidableEq, Repr

/-- A `*cobra.Command` with the two fields the hooks look at: `PersistentPreRun`
(possibly nil) and the parent (nil for a top command). -/
inductive Command where
  | top (hook : Option Hook)
  | sub (hook : Option Hook) (parent : Command)
deriving DecidableEq, Repr

/-- The method `cmd.Parent()`. -/
def Command.Parent : Command → Option Command
  | .top _ => none
  | .sub _ parent => some parent

/-- The field `cmd.PersistentPreRun`. -/
def Command.PersistentPreRun : Command → Option Hook
  | .top hook => hook
  | .sub hook _ => hook

/-- The variable `rootCmd` (root.go:47-62). -/
def rootCmd : Command := .top (some .root)

/-- The statements of a hook after its call of `callPersistentPreRun`.  For
`rootCmd` these are root.go:54-60: read the token and the application ID from
viper, `logrus.Fatal` (exit status 1) when the token is empty or the ID is not
valid, otherwise `client = api.NewClient(token)`. -/
def hookBody (w : World) : Hook → Proc → Outcome
  | .root, p =>
    let token := GetString w p "discord_token"
    let application_id := GetUint64 w p "application_id"
    let p := { p with trace := p.trace ++ [Event.validated] }
    if token = "" ∨ !IsValid application_id then
      .exit 1 { p with trace := p.trace ++ [Event.fatal "Required configs are not set. Either set them with `discord_cli config` or through command line flags"] }
    else
      .done { p with client := some { token := token }, trace := p.trace ++ [Event.newClient token] }
  | .child id, p => .done { p with trace := p.trace ++ [Event.childSetup id] }

/-- Running the hook `h` with `cmd` as its first argument: the inlined call
`callPersistentPreRun(cmd, args)` (root.go:38-44, the parent's hook run with
the parent as its argument when both exist), then the hook's own statements. -/
def runHook (w : World) : Command → Hook → Proc → Outcome
  | .top _, h, p => hookBody w h p
  | .sub _ parent, h, p =>
    (match parent.PersistentPreRun with
      | none => Outcome.done p
      | some ph => runHook w parent ph p).andThen (hookBody w h)

/-- The function `callPersistentPreRun` (root.go:38-44). -/
def callPersistentPreRun (w : World) (cmd : Command) (p : Proc) : Outcome :=
  match cmd.Parent with
  | none => .done p
  | some parent =>
    match parent.PersistentPreRun with
    | none => .done p
    | some ph => runHook w parent ph p

/-- The hook cobra picks for an invoked command: the first non-nil
`PersistentPreRun` on the way from the command up to the root. -/
def nearestHook : Command → Option Hook
  | .top hook => hook
  | .sub (some h) _ => some h
  | .sub none parent => nearestHook parent

/-- The setup step of cobra's `execute`: the picked hook is called once, with
the invoked command as its argument. -/
def persistentPreRun (w : World) (c : Command) (p : Proc) : Outcome :=
  match nearestHook c with
  | none => .done p
  | some h => runHook w c h p

/-- The function `Execute` (root.go:66-69) up to the start of the command's own
`Run`: `init` has run, cobra parses the flags (an error ends in
`cobra.CheckErr`, status 1), runs the initializer `initConfig`, then the setup
hook. -/
def Execute (w : World) (c : Command) (args : List Arg) : Outcome :=
  match init.parseFlags args with
  | none => .exit 1 init
  | some p => (initConfig w p).andThen (persistentPreRun w c)

/-- How often the root's validation ran. -/
def validations (p : Proc) : Nat := p.trace.count .validated

/-- The client handles constructed, in order. -/
def clientsBuilt (p : Proc) : List String :=
  p.trace.filterMap fun e => match e with
    | .newClient t => some t
    | _ => none

/-- The value of the last occurrence on the command line that names the flag
`name` (by its long name or its shorthand): what pflag leaves in force. -/
def lastGiven (name : String) : List Arg → Option Val
  | [] => none
  | a :: rest =>
    match lastGiven name rest with
    | some v => some v
    | none =>
      match findFlag init.flags a with
      | some f => if f.name = name then some a.value else none
      | none => none

/-- The flags `BindPFlags` bound to viper: the four configuration fields. -/
def boundFlags : List Flag := init.viper.pflags.map Prod.snd

/-! ## Concrete surroundings used to run the model -/

/-- A machine with a home directory, no config file and an empty environment. -/
def bareWorld : World :=
  { lookupEnv := fun _ => none
    userHomeDir := .ok "/home/op"
    absPathify := fun s => if s = "." then "/work" else s
    readInConfig := fun _ _ _ _ => .error "Config File Not Found"
    parseUint := fun _ => 0 }

/-- A machine whose `$HOME/.discord_cli` holds `discord_token: abc` and
`application_id: 123`, with an empty environment. -/
def fileWorld : World :=
  { bareWorld with
    readInConfig := fun file paths name _ =>
      if file = "" ∧ "/home/op" ∈ paths ∧ name = ".discord_cli" then
        .ok ("/home/op/.discord_cli", [("discord_token", .str "abc"), ("application_id", .uint 123)])
      else .error "Config File Not Found" }

/-- The machine of `fileWorld` with `DISCORD_TOKEN` set to the empty string. -/
def emptyEnvWorld : World :=
  { fileWorld with lookupEnv := fun k => if k = "DISCORD_TOKEN" then some "" else none }

/-- A machine on which the home directory cannot be determined. -/
def homelessWorld : World :=
  { bareWorld with userHomeDir := .error "$HOME is not defined" }

/-! ## Predicates and shapes the theorems are stated with -/

/-- Two states agree on everything the lookup reads. -/
def SameInputs (p q : Proc) : Prop :=
  q.config = p.config ∧ q.changed = p.changed ∧ q.viper = p.viper

/-- The required configuration is missing: the token resolves to the empty
string or the application ID resolves to 0. -/
def Missing (w : World) (p : Proc) : Prop :=
  GetString w p "discord_token" = "" ∨ GetUint64 w p "application_id" = 0

/-- What a hook run leaves behind when the required configuration is missing:
the inputs of the lookup, the client and the list of constructed clients are
unchanged, and an exit has status 1. -/
def Untouched (p : Proc) (o : Outcome) : Prop :=
  SameInputs p o.proc ∧ o.proc.client = p.client ∧ clientsBuilt o.proc = clientsBuilt p ∧
    ∀ code q, o = .exit code q → code = 1

/-- The value of the last occurrence on the command line whose flag writes
through the pointer `t`. -/
def lastWrite (t : Target) : List Arg → Option Val
  | [] => none
  | a :: rest =>
    match lastWrite t rest with
    | some v => some v
    | none =>
      match findFlag init.flags a with
      | some f => if f.target = t then some a.value else none
      | none => none

/-- The path `rootCmd → c₁ → … → cₙ` in which no child has a setup hook; the
result is the innermost command. -/
def hookless : Nat → Command
  | 0 => rootCmd
  | n + 1 => .sub none (hookless n)

/-- The path below `rootCmd` in which every child has a setup hook of its own
(one per listed id, innermost first). -/
def chained : List Nat → Command
  | [] => rootCmd
  | id :: ids => .sub (some (.child id)) (chained ids)

/-- The required configuration is there: the token resolves to a non-empty
string and the application ID to a valid id. -/
def Ready (w : World) (p : Proc) : Prop :=
  GetString w p "discord_token" ≠ "" ∧ IsValid (GetUint64 w p "application_id") = true

/-- The state the root's statements leave when they succeed with token
`tok`: one validation, one client built from `tok` and stored in `client`. -/
def afterRoot (tok : String) (p : Proc) : Proc :=
  { p with client := some { token := tok }
           trace := p.trace ++ [Event.validated, Event.newClient tok] }

end DiscordCli

/-! # Theorems -/

namespace DiscordCli

/-! ## Flags -/

/-- The flag set `init` leaves behind, in registration order. -/
theorem init_flags : init.flags =
    [ { name := "discord_token", shorthand := "t", target := .str .DiscordToken, defValue := .str "" },
      { name := "application_id", shorthand := "a", target := .u64 .ApplicationID, defValue := .uint 0 },
      { name := "guild_id", shorthand := "", target := .u64 .GuildID, defValue := .uint 0 },
      { name := "user_id", shorthand := "u", target := .u64 .GuildID, defValue := .uint 0 },
      { name := "config", shorthand := "", target := .str .ConfigFile, defValue := .str "" } ] := rfl

/-- A flag found in a flag set is a member of it. -/
theorem findFlag_mem {flags : List Flag} {a : Arg} {f : Flag} (h : findFlag flags a = some f) :
    f ∈ flags := by
  unfold findFlag at h
  exact List.mem_of_find?_eq_some h

/-- No flag registered by `init` points at `config.UserID`. -/
theorem init_flags_target_ne_UserID {f : Flag} (hf : f ∈ init.flags) : f.target ≠ .u64 .UserID := by
  rw [init_flags] at hf
  simp only [List.mem_cons, List.mem_singleton, List.not_mem_nil, or_false] at hf
  rcases hf with rfl | rfl | rfl | rfl | rfl <;> decide

/-- A write through a pointer other than `&config.UserID` leaves `UserID` alone. -/
theorem store_UserID {c d : Configuration} {t : Target} {v : Val}
    (ht : t ≠ .u64 .UserID) (h : t.store c v = some d) : d.UserID = c.UserID := by
  rcases t with (_ | _) | (_ | _ | _) <;> cases v <;> simp only [Target.store] at h
  all_goals first
    | exact absurd rfl ht
    | (split at h <;> simp at h; subst h; rfl)
    | (simp at h; subst h; rfl)
    | simp at h

/-- What one accepted occurrence does to the state. -/
theorem setArg_some {p q : Proc} {a : Arg} (h : p.setArg a = some q) :
    ∃ f, findFlag p.flags a = some f ∧ f.target.store p.config a.value = some q.config ∧
      q.changed = f.name :: p.changed ∧ q.flags = p.flags ∧ q.viper = p.viper ∧
      q.client = p.client ∧ q.trace = p.trace := by
  unfold Proc.setArg at h
  cases hf : findFlag p.flags a with
  | none => simp [hf] at h
  | some f =>
    cases hs : f.target.store p.config a.value with
    | none => simp [hf, hs] at h
    | some c =>
      simp only [hf, hs, Option.some.injEq] at h
      subst h
      exact ⟨f, rfl, hs, rfl, rfl, rfl, rfl, rfl⟩

/-- Parsing any command line never touches `config.UserID`. -/
theorem parseFlags_UserID (args : List Arg) : ∀ (p q : Proc), p.flags = init.flags →
    p.parseFlags args = some q → q.config.UserID = p.config.UserID := by
  induction args with
  | nil =>
    intro p q _ h
    simp only [Proc.parseFlags, Option.some.injEq] at h
    subst h; rfl
  | cons a rest ih =>
    intro p q hp h
    simp only [Proc.parseFlags] at h
    cases hs : p.setArg a with
    | none => simp [hs] at h
    | some r =>
      simp only [hs] at h
      obtain ⟨f, hf, hst, -, hfl, -, -, -⟩ := setArg_some hs
      have hmem : f ∈ init.flags := hp ▸ findFlag_mem hf
      rw [ih r q (hfl.trans hp) h]
      exact store_UserID (init_flags_target_ne_UserID hmem) hst

/-- C10: `--user_id v` and `-u v` write `v` into `config.GuildID`, the field
`--guild_id` is bound to, and leave `config.UserID` as it was; no flag
registered by `init` points at `config.UserID`, so no command line changes
it. -/
theorem user_id_flag_writes_GuildID (p : Proc) (hp : p.flags = init.flags) (v : Nat)
    (hv : v < 2 ^ 64) :
    (∀ a : Arg, a = ⟨false, "user_id", .uint v⟩ ∨ a = ⟨true, "u", .uint v⟩ →
      ∃ q, p.setArg a = some q ∧ q.config.GuildID = v ∧ q.config.UserID = p.config.UserID) ∧
    (findFlag init.flags ⟨false, "user_id", .uint v⟩).map Flag.target =
      (findFlag init.flags ⟨false, "guild_id", .uint v⟩).map Flag.target ∧
    (∀ f ∈ init.flags, f.target ≠ .u64 .UserID) ∧
    (∀ args q, p.parseFlags args = some q → q.config.UserID = p.config.UserID) := by
  refine ⟨?_, rfl, fun f hf => init_flags_target_ne_UserID hf, fun args q h => parseFlags_UserID args p q hp h⟩
  intro a ha
  have hfind : findFlag p.flags a =
      some { name := "user_id", shorthand := "u", target := .u64 .GuildID, defValue := .uint 0 } := by
    rw [hp]; rcases ha with rfl | rfl <;> rfl
  have hval : a.value = .uint v := by rcases ha with rfl | rfl <;> rfl
  refine ⟨{ p with config := { p.config with GuildID := v }, changed := "user_id" :: p.changed }, ?_, rfl, rfl⟩
  simp only [Proc.setArg, hfind, hval, Target.store]
  rw [if_pos hv]

/-- C10, at a concrete input: `-u 42` on the state `init` leaves. -/
theorem user_id_flag_writes_GuildID_witness :
    (42 : Nat) < 2 ^ 64 ∧
    ∃ q, init.setArg ⟨true, "u", .uint 42⟩ = some q ∧ q.config.GuildID = 42 ∧
      q.config.UserID = init.config.UserID :=
  ⟨by decide,
    (user_id_flag_writes_GuildID init rfl 42 (by decide)).1 ⟨true, "u", .uint 42⟩ (Or.inr rfl)⟩

/-! ## The setup hook -/

/-- The lookup reads only `config`, the `Changed` bits and viper. -/
theorem find_congr (w : World) {p q : Proc} (hc : q.config = p.config)
    (hch : q.changed = p.changed) (hv : q.viper = p.viper) (key : String) :
    find w q key = find w p key := by
  simp only [find, hc, hch, hv]

/-- A state agrees with itself. -/
theorem SameInputs.refl (p : Proc) : SameInputs p p := ⟨rfl, rfl, rfl⟩

/-- Agreement on the inputs of the lookup is transitive. -/
theorem SameInputs.trans {p q r : Proc} (h1 : SameInputs p q) (h2 : SameInputs q r) :
    SameInputs p r :=
  ⟨h2.1.trans h1.1, h2.2.1.trans h1.2.1, h2.2.2.trans h1.2.2⟩

/-- States that agree on the inputs resolve the same strings. -/
theorem SameInputs.GetString (w : World) {p q : Proc} (h : SameInputs p q) (key : String) :
    GetString w q key = GetString w p key := by
  simp only [DiscordCli.GetString, find_congr w h.1 h.2.1 h.2.2]

/-- States that agree on the inputs resolve the same numbers. -/
theorem SameInputs.GetUint64 (w : World) {p q : Proc} (h : SameInputs p q) (key : String) :
    GetUint64 w q key = GetUint64 w p key := by
  simp only [DiscordCli.GetUint64, find_congr w h.1 h.2.1 h.2.2]

/-- Missing configuration stays missing while the inputs are the same. -/
theorem Missing.of_sameInputs (w : World) {p q : Proc} (h : SameInputs p q)
    (hm : Missing w p) : Missing w q := by
  unfold Missing at *
  rw [h.GetString, h.GetUint64]
  exact hm

/-- Appending effects appends the clients built among them. -/
theorem clientsBuilt_append (p : Proc) (es : List Event) (c : Option Client) :
    clientsBuilt { p with client := c, trace := p.trace ++ es } =
      clientsBuilt p ++ es.filterMap (fun e => match e with
        | .newClient t => some t
        | _ => none) := by
  simp [clientsBuilt, List.filterMap_append]

/-- The statements of a hook, run with the required configuration missing. -/
theorem hookBody_missing (w : World) (h : Hook) (p : Proc) (hm : Missing w p) :
    Untouched p (hookBody w h p) ∧ (h = .root → ∃ q, hookBody w h p = .exit 1 q) := by
  cases h with
  | root =>
    have hcond : GetString w p "discord_token" = "" ∨
        (!IsValid (GetUint64 w p "application_id")) = true := by
      rcases hm with h1 | h2
      · exact Or.inl h1
      · exact Or.inr (by rw [h2]; rfl)
    simp only [hookBody, if_pos hcond]
    refine ⟨⟨⟨rfl, rfl, rfl⟩, rfl, ?_, ?_⟩, fun _ => ⟨_, rfl⟩⟩
    · simp [Outcome.proc, clientsBuilt, List.filterMap_append]
    · intro code q hq
      injection hq with h1 _
      exact h1.symm
  | child id =>
    simp only [hookBody]
    refine ⟨⟨⟨rfl, rfl, rfl⟩, rfl, ?_, ?_⟩, fun h => by cases h⟩
    · simp [Outcome.proc, clientsBuilt, List.filterMap_append]
    · intro code q hq
      cases hq

/-- Sequencing two steps that each leave the state untouched. -/
theorem Untouched.andThen {p : Proc} {o : Outcome} {k : Proc → Outcome} (ho : Untouched p o)
    (hk : ∀ q, o = .done q → Untouched q (k q)) : Untouched p (o.andThen k) := by
  cases o with
  | done q =>
    obtain ⟨h1, h2, h3, _⟩ := ho
    obtain ⟨k1, k2, k3, k4⟩ := hk q rfl
    exact ⟨h1.trans k1, k2.trans h2, k3.trans h3, k4⟩
  | exit code q => exact ho

/-- Running any hook on any command with the required configuration missing
leaves the state untouched, and the root's hook ends in exit status 1. -/
theorem runHook_missing (w : World) (cmd : Command) : ∀ (h : Hook) (p : Proc), Missing w p →
    Untouched p (runHook w cmd h p) ∧ (h = .root → ∃ q, runHook w cmd h p = .exit 1 q) := by
  induction cmd with
  | top hook =>
    intro h p hm
    simpa only [runHook] using hookBody_missing w h p hm
  | sub hook parent ih =>
    intro h p hm
    have hpre : Untouched p (match parent.PersistentPreRun with
        | none => Outcome.done p
        | some ph => runHook w parent ph p) := by
      cases parent.PersistentPreRun with
      | none => exact ⟨SameInputs.refl p, rfl, rfl, fun _ _ hq => by cases hq⟩
      | some ph => exact (ih ph p hm).1
    simp only [runHook]
    refine ⟨hpre.andThen fun q hq => ?_, fun hroot => ?_⟩
    · have hs : SameInputs p q := by have := hpre.1; rw [hq] at this; exact this
      exact (hookBody_missing w h q (hm.of_sameInputs w hs)).1
    · generalize (match parent.PersistentPreRun with
        | none => Outcome.done p
        | some ph => runHook w parent ph p) = o at hpre
      cases o with
      | done q =>
        exact (hookBody_missing w h q (hm.of_sameInputs w hpre.1)).2 hroot
      | exit code q =>
        have := hpre.2.2.2 code q rfl
        subst this
        exact ⟨q, rfl⟩

/-- C1: whenever the resolved token is the empty string or the resolved
application ID is 0, the root's setup hook, run for any command, ends the
process with exit status 1; the global client is what it was before the hook
ran and no client handle has been constructed on the way. -/
theorem rootHook_fatal_when_config_missing (w : World) (cmd : Command) (p : Proc)
    (hm : GetString w p "discord_token" = "" ∨ GetUint64 w p "application_id" = 0) :
    ∃ q, runHook w cmd .root p = .exit 1 q ∧ q.client = p.client ∧
      clientsBuilt q = clientsBuilt p := by
  obtain ⟨hu, hex⟩ := runHook_missing w cmd .root p hm
  obtain ⟨q, hq⟩ := hex rfl
  rw [hq] at hu
  exact ⟨q, hq, hu.2.1, hu.2.2.1⟩

/-- C1, at a concrete input: no token anywhere, the hook run for a child of
the root. -/
theorem rootHook_fatal_when_config_missing_witness :
    GetString bareWorld init "discord_token" = "" ∧
    ∃ q, runHook bareWorld (.sub none rootCmd) .root init = .exit 1 q ∧ q.client = init.client ∧
      clientsBuilt q = clientsBuilt init :=
  ⟨rfl, rootHook_fatal_when_config_missing bareWorld (.sub none rootCmd) init (Or.inl rfl)⟩

/-! ## `initConfig` -/

/-- C7: with a non-empty `config.ConfigFile`, `initConfig` sets viper's config
file to exactly that path and adds no search path (name and type stay as they
were); with an empty one and a home directory, the search paths are the home
directory followed by the current directory (each made absolute, the second
left out when it is the same directory), the config name is `.discord_cli`
and the config type is `yaml`.  In both cases the read of `initConfig` runs
on these settings. -/
theorem initConfig_selects_source (w : World) (p : Proc) :
    (p.config.ConfigFile ≠ "" →
      ∃ s, configSource w p = .done s ∧ initConfig w p = readConfig w s ∧
        s.viper.configFile = p.config.ConfigFile ∧ s.viper.configPaths = p.viper.configPaths ∧
        s.viper.configName = p.viper.configName ∧ s.viper.configType = p.viper.configType) ∧
    (p.config.ConfigFile = "" → ∀ home, w.userHomeDir = .ok home → home ≠ "" →
      p.viper.configPaths = [] →
      ∃ s, configSource w p = .done s ∧ initConfig w p = readConfig w s ∧
        s.viper.configFile = "" ∧
        s.viper.configPaths =
          (if w.absPathify "." = w.absPathify home then [w.absPathify home]
           else [w.absPathify home, w.absPathify "."]) ∧
        s.viper.configName = ".discord_cli" ∧ s.viper.configType = "yaml") := by
  constructor
  · intro hne
    refine ⟨{ p with viper := { p.viper with configFile := p.config.ConfigFile } }, ?_, ?_, rfl, rfl, rfl, rfl⟩
    · simp [configSource, hne, Viper.SetConfigFile]
    · simp [initConfig, configSource, hne, Viper.SetConfigFile, Outcome.andThen]
  · intro he home hhome hne hpaths
    have hsrc : configSource w p = .done { p with viper := (Viper.SetConfigName
        (((p.viper.AddConfigPath w home).AddConfigPath w ".").SetConfigType "yaml")
        CONFIG_FILENAME) } := by
      simp [configSource, he, hhome]
    refine ⟨_, hsrc, ?_, ?_, ?_, ?_, ?_⟩
    · simp [initConfig, hsrc, Outcome.andThen]
    · simp [Viper.SetConfigName, CONFIG_FILENAME]
    · by_cases hsame : w.absPathify "." = w.absPathify home
      · simp [Viper.SetConfigName, Viper.SetConfigType, Viper.AddConfigPath, CONFIG_FILENAME, hne,
          hpaths, hsame]
      · simp [Viper.SetConfigName, Viper.SetConfigType, Viper.AddConfigPath, CONFIG_FILENAME, hne,
          hpaths, hsame]
    · simp [Viper.SetConfigName, CONFIG_FILENAME]
    · simp [Viper.SetConfigName, Viper.SetConfigType, CONFIG_FILENAME]

/-- C7, at concrete inputs: `--config /etc/dc.yaml`, and no `--config` on a
machine whose home is `/home/op` and whose working directory is `/work`. -/
theorem initConfig_selects_source_witness :
    (∃ p s, init.parseFlags [⟨false, "config", .str "/etc/dc.yaml"⟩] = some p ∧
      configSource bareWorld p = .done s ∧ s.viper.configFile = "/etc/dc.yaml" ∧
      s.viper.configPaths = []) ∧
    (∃ s, configSource bareWorld init = .done s ∧ s.viper.configPaths = ["/home/op", "/work"] ∧
      s.viper.configName = ".discord_cli" ∧ s.viper.configType = "yaml") := by
  constructor
  · obtain ⟨s, h1, -, h3, h4, -, -⟩ := (initConfig_selects_source bareWorld
      { init with config := { init.config with ConfigFile := "/etc/dc.yaml" },
                  changed := ["config"] }).1 (by decide)
    exact ⟨_, s, rfl, h1, h3, h4⟩
  · obtain ⟨s, h1, -, -, h4, h5, h6⟩ := (initConfig_selects_source bareWorld init).2 rfl
      "/home/op" rfl (by decide) rfl
    exact ⟨s, h1, h4, h5, h6⟩

/-- A returning `configSource` changes nothing but viper's settings. -/
theorem configSource_done {w : World} {p s : Proc} (h : configSource w p = .done s) :
    s.config = p.config ∧ s.flags = p.flags ∧ s.changed = p.changed ∧ s.client = p.client ∧
      s.trace = p.trace ∧ s.viper.pflags = p.viper.pflags ∧ s.viper.config = p.viper.config := by
  unfold configSource at h
  split at h
  · injection h with h; subst h
    simp only [Viper.SetConfigFile]
    split <;> simp
  · split at h
    · cases h
    · injection h with h; subst h
      refine ⟨rfl, rfl, rfl, rfl, rfl, ?_, ?_⟩ <;>
        simp only [Viper.SetConfigName, Viper.SetConfigType, Viper.AddConfigPath] <;>
        (repeat' split) <;> rfl

/-- C8: once the config source is chosen, a failing read lets `initConfig`
return with `config` unchanged and nothing written to standard error; a
successful read stores the path of the file used in `config.ConfigFile`
(nothing else in `config` changes) and reports it on standard error. -/
theorem initConfig_read_outcome (w : World) (p s : Proc) (hs : configSource w p = .done s) :
    match w.readInConfig s.viper.configFile s.viper.configPaths s.viper.configName
        s.viper.configType with
    | .error _ =>
      ∃ q, initConfig w p = .done q ∧ q.config = p.config ∧
        q.trace = p.trace ++ [Event.readInConfig]
    | .ok (file, keys) =>
      ∃ q, initConfig w p = .done q ∧ q.config = { p.config with ConfigFile := file } ∧
        q.viper.config = keys ∧
        q.trace = p.trace ++ [Event.readInConfig, Event.stderr ("Using config file: " ++ file)] := by
  obtain ⟨hc, -, -, -, ht, -, -⟩ := configSource_done hs
  cases hr : w.readInConfig s.viper.configFile s.viper.configPaths s.viper.configName
      s.viper.configType with
  | error e =>
    simp only [initConfig, hs, Outcome.andThen, readConfig, Viper.ReadInConfig, Viper.AutomaticEnv, hr]
    exact ⟨_, rfl, hc, by simp [ht]⟩
  | ok r =>
    obtain ⟨file, keys⟩ := r
    simp only [initConfig, hs, Outcome.andThen, readConfig, Viper.ReadInConfig, Viper.AutomaticEnv, hr]
    exact ⟨_, rfl, by simp [hc, Viper.ConfigFileUsed], rfl, by simp [ht, Viper.ConfigFileUsed]⟩

/-- C8, at concrete inputs: a machine without a config file and one with. -/
theorem initConfig_read_outcome_witness :
    (∃ q, initConfig bareWorld init = .done q ∧ q.config = init.config ∧
      q.trace = [Event.readInConfig]) ∧
    (∃ q, initConfig fileWorld init = .done q ∧ q.config.ConfigFile = "/home/op/.discord_cli" ∧
      q.trace = [Event.readInConfig, Event.stderr "Using config file: /home/op/.discord_cli"]) := by
  constructor
  · obtain ⟨q, h1, h2, h3⟩ := initConfig_read_outcome bareWorld init
      (configSource bareWorld init).proc rfl
    exact ⟨q, h1, h2, h3⟩
  · obtain ⟨q, h1, h2, -, h3⟩ := initConfig_read_outcome fileWorld init
      (configSource fileWorld init).proc rfl
    exact ⟨q, h1, by rw [h2], h3⟩

/-- C9: when `config.ConfigFile` is empty and the home directory cannot be
determined, `initConfig` ends the process with exit status 1 after printing
the error; viper and `config` are as before and no read of a config file was
attempted. -/
theorem initConfig_fatal_without_home (w : World) (p : Proc) (err : String)
    (hfile : p.config.ConfigFile = "") (hhome : w.userHomeDir = .error err) :
    ∃ q, initConfig w p = .exit 1 q ∧ q.viper = p.viper ∧ q.config = p.config ∧
      q.trace = p.trace ++ [Event.stderr ("Error: " ++ err)] ∧
      Event.readInConfig ∉ q.trace.drop p.trace.length := by
  refine ⟨{ p with trace := p.trace ++ [Event.stderr ("Error: " ++ err)] }, ?_, rfl, rfl, rfl, ?_⟩
  · simp [initConfig, configSource, hfile, hhome, Outcome.andThen]
  · simp

/-- C9, at a concrete input: no flags on a machine without a home directory. -/
theorem initConfig_fatal_without_home_witness :
    ∃ q, initConfig homelessWorld init = .exit 1 q ∧ q.viper = init.viper ∧
      q.config = init.config ∧ q.trace = [Event.stderr "Error: $HOME is not defined"] := by
  obtain ⟨q, h1, h2, h3, h4, -⟩ := initConfig_fatal_without_home homelessWorld init
    "$HOME is not defined" rfl rfl
  exact ⟨q, h1, h2, h3, h4⟩

/-! ## Resolution order -/

/-- The flags bound to viper, in order. -/
theorem boundFlags_eq : boundFlags =
    [ { name := "discord_token", shorthand := "t", target := .str .DiscordToken, defValue := .str "" },
      { name := "application_id", shorthand := "a", target := .u64 .ApplicationID, defValue := .uint 0 },
      { name := "guild_id", shorthand := "", target := .u64 .GuildID, defValue := .uint 0 },
      { name := "user_id", shorthand := "u", target := .u64 .GuildID, defValue := .uint 0 } ] := rfl

/-- A successful write is read back through the same pointer and is invisible
through every other pointer. -/
theorem load_store {c d : Configuration} {t : Target} {v : Val} (h : t.store c v = some d)
    (u : Target) : u.load d = if t = u then v else u.load c := by
  rcases t with (_ | _) | (_ | _ | _) <;> cases v <;> simp only [Target.store] at h <;>
    first
    | (simp at h; done)
    | (split at h
       · injection h with h; subst h
         rcases u with (_ | _) | (_ | _ | _) <;> simp [Target.load]
       · simp at h)
    | (injection h with h; subst h
       rcases u with (_ | _) | (_ | _ | _) <;> simp [Target.load])

/-- What a successful parse leaves behind, whatever the state it started in:
the flag set and viper are untouched, a flag is marked changed exactly when it
was before or the command line names it, and every field holds the last value
written through a pointer to it. -/
theorem parseFlags_effect (args : List Arg) : ∀ (p0 p : Proc), p0.flags = init.flags →
    p0.parseFlags args = some p →
    p.flags = init.flags ∧ p.viper = p0.viper ∧ p.client = p0.client ∧ p.trace = p0.trace ∧
    (∀ name, name ∈ p.changed ↔ (lastGiven name args).isSome = true ∨ name ∈ p0.changed) ∧
    (∀ t : Target, t.load p.config = (lastWrite t args).getD (t.load p0.config)) := by
  induction args with
  | nil =>
    intro p0 p hp h
    simp only [Proc.parseFlags, Option.some.injEq] at h
    subst h
    simp [hp, lastGiven, lastWrite]
  | cons a rest ih =>
    intro p0 p hp h
    simp only [Proc.parseFlags] at h
    cases hs : p0.setArg a with
    | none => simp [hs] at h
    | some r =>
      simp only [hs] at h
      obtain ⟨f, hf, hst, hch, hfl, hvi, hcl, htr⟩ := setArg_some hs
      rw [hp] at hf
      obtain ⟨i1, i2, i3, i4, i5, i6⟩ := ih r p (hfl.trans hp) h
      refine ⟨i1, i2.trans hvi, i3.trans hcl, i4.trans htr, ?_, ?_⟩
      · intro name
        rw [i5 name, hch]
        simp only [lastGiven, hf, List.mem_cons]
        cases lastGiven name rest with
        | some v => simp
        | none =>
          by_cases hn : f.name = name
          · simp [hn]
          · have hn2 : ¬ name = f.name := fun e => hn e.symm
            simp [hn, hn2]
      · intro t
        rw [i6 t, load_store hst t]
        simp only [lastWrite, hf]
        cases lastWrite t rest with
        | some v => simp
        | none =>
          by_cases ht : f.target = t
          · simp [ht]
          · simp [ht]

/-- The command line does not name `name`: neither does its tail, and its
first occurrence names another flag. -/
theorem lastGiven_cons_none {name : String} {a : Arg} {rest : List Arg}
    (h : lastGiven name (a :: rest) = none) :
    lastGiven name rest = none ∧ ∀ g, findFlag init.flags a = some g → g.name ≠ name := by
  simp only [lastGiven] at h
  cases hr : lastGiven name rest with
  | some v => simp [hr] at h
  | none =>
    refine ⟨rfl, fun g hg hn => ?_⟩
    simp [hr, hg, hn] at h

/-- For a bound flag whose pointer no other given flag shares, the last value
written through the pointer is the last value given for the flag. -/
theorem lastWrite_eq_lastGiven {f : Flag} (hf : f ∈ boundFlags) (args : List Arg) :
    (f.name = "guild_id" → lastGiven "user_id" args = none) →
    (f.name = "user_id" → lastGiven "guild_id" args = none) →
    lastWrite f.target args = lastGiven f.name args := by
  induction args with
  | nil => intro _ _; rfl
  | cons a rest ih =>
    intro hg hu
    have hg2 := fun e => lastGiven_cons_none (hg e)
    have hu2 := fun e => lastGiven_cons_none (hu e)
    simp only [lastWrite, lastGiven]
    rw [ih (fun e => (hg2 e).1) (fun e => (hu2 e).1)]
    cases lastGiven f.name rest with
    | some v => rfl
    | none =>
      cases hfind : findFlag init.flags a with
      | none => rfl
      | some g =>
        have key : g.target = f.target ↔ g.name = f.name := by
          have hmem := findFlag_mem hfind
          rw [init_flags] at hmem
          rw [boundFlags_eq] at hf
          simp only [List.mem_cons, List.mem_singleton, List.not_mem_nil, or_false] at hmem hf
          rcases hf with rfl | rfl | rfl | rfl <;> rcases hmem with rfl | rfl | rfl | rfl | rfl <;>
            first
            | decide
            | exact absurd rfl ((hg2 rfl).2 _ hfind)
            | exact absurd rfl ((hu2 rfl).2 _ hfind)
        show (if g.target = f.target then some a.value else none) =
          (if g.name = f.name then some a.value else none)
        by_cases hn : g.name = f.name
        · rw [if_pos hn, if_pos (key.mpr hn)]
        · rw [if_neg hn, if_neg (fun e => hn (key.mp e))]

/-- After a returning `initConfig`: flags, `Changed` bits, bound flags and the
client are as before, `AutomaticEnv` is on, and every field of `config` other
than `ConfigFile` is as before. -/
theorem initConfig_done {w : World} {p q : Proc} (h : initConfig w p = .done q) :
    q.flags = p.flags ∧ q.changed = p.changed ∧ q.client = p.client ∧
    q.viper.pflags = p.viper.pflags ∧ q.viper.automaticEnvApplied = true ∧
    (∀ t : Target, t ≠ .str .ConfigFile → t.load q.config = t.load p.config) ∧
    (q.viper.config = p.viper.config ∨ q.config.ConfigFile = q.viper.ConfigFileUsed) := by
  unfold initConfig at h
  cases hs : configSource w p with
  | exit code s => simp [hs, Outcome.andThen] at h
  | done s =>
    obtain ⟨hc, hfl, hch, hcl, -, hpf, hcf⟩ := configSource_done hs
    simp only [hs, Outcome.andThen, readConfig, Viper.AutomaticEnv, Viper.ReadInConfig] at h
    split at h
    · rename_i v hv
      injection h with h; subst h
      split at hv
      · cases hv
      · injection hv with hv; subst hv
        refine ⟨hfl, hch, hcl, hpf, rfl, ?_, Or.inr rfl⟩
        intro t ht
        rw [← hc]
        rcases t with (_ | _) | (_ | _ | _) <;> first | exact absurd rfl ht | rfl
    · injection h with h; subst h
      refine ⟨hfl, hch, hcl, hpf, rfl, ?_, Or.inl hcf⟩
      intro t _
      rw [← hc]

/-- The lookup for the key of a bound flag, once `AutomaticEnv` is on. -/
theorem find_bound (w : World) {q : Proc} {f : Flag} (hf : f ∈ boundFlags)
    (hpf : q.viper.pflags = init.viper.pflags) (hauto : q.viper.automaticEnvApplied = true) :
    find w q f.name =
      if f.name ∈ q.changed then some (f.target.load q.config)
      else match getEnv w (upper f.name) with
        | some e => some (.str e)
        | none =>
          match q.viper.config.lookup f.name with
          | some v => some v
          | none => some (f.target.load q.config) := by
  have hlow : lower f.name = f.name := by
    rw [boundFlags_eq] at hf
    simp only [List.mem_cons, List.mem_singleton, List.not_mem_nil, or_false] at hf
    rcases hf with rfl | rfl | rfl | rfl <;> rfl
  have hlk : init.viper.pflags.lookup f.name = some f := by
    rw [boundFlags_eq] at hf
    simp only [List.mem_cons, List.mem_singleton, List.not_mem_nil, or_false] at hf
    rcases hf with rfl | rfl | rfl | rfl <;> rfl
  simp only [find, hlow, hpf, hlk, hauto, if_true, Option.filter, Option.map]
  by_cases hc : f.name ∈ q.changed
  · simp [hc]
  · simp only [hc, if_false]
    have : q.changed.contains f.name = false := by simpa using hc
    simp only [this]
    rfl

/-- No bound flag points at `config.ConfigFile`, and before any flag is parsed
its field holds its default. -/
theorem boundFlags_target {f : Flag} (hf : f ∈ boundFlags) :
    f.target ≠ .str .ConfigFile ∧ f.target.load init.config = f.defValue := by
  rw [boundFlags_eq] at hf
  simp only [List.mem_cons, List.mem_singleton, List.not_mem_nil, or_false] at hf
  rcases hf with rfl | rfl | rfl | rfl <;> exact ⟨by decide, rfl⟩

/-- C5 (as amended): for each of the four bound keys, after flag parsing and
`initConfig`, the value viper resolves is the last value given for the key's
flag if the flag was given; otherwise the value of the upper-cased
environment variable if it is set to a non-empty string; otherwise the value
of the key in the loaded config file; otherwise the flag's default.  For
`guild_id` and `user_id`, whose flags share one field, this is stated for
command lines that do not give the other of the two flags. -/
theorem resolved_value_precedence (w : World) (args : List Arg) (p q : Proc) (f : Flag)
    (hf : f ∈ boundFlags) (hparse : init.parseFlags args = some p)
    (hcfg : initConfig w p = .done q)
    (hguild : f.name = "guild_id" → lastGiven "user_id" args = none)
    (huser : f.name = "user_id" → lastGiven "guild_id" args = none) :
    find w q f.name = some
      (match lastGiven f.name args with
        | some v => v
        | none =>
          match getEnv w (upper f.name) with
          | some e => .str e
          | none =>
            match q.viper.config.lookup f.name with
            | some v => v
            | none => f.defValue) := by
  obtain ⟨-, pv, -, -, pch, pload⟩ := parseFlags_effect args init p rfl hparse
  obtain ⟨-, qch, -, qpf, qauto, qload, -⟩ := initConfig_done hcfg
  have hpf : q.viper.pflags = init.viper.pflags := by rw [qpf, pv]
  obtain ⟨htne, hdef⟩ := boundFlags_target hf
  have hl : f.target.load q.config = (lastGiven f.name args).getD f.defValue := by
    rw [qload _ htne, pload, lastWrite_eq_lastGiven hf args hguild huser, hdef]
  have hmem : f.name ∈ q.changed ↔ (lastGiven f.name args).isSome = true := by
    rw [qch, pch]
    have : init.changed = [] := rfl
    simp [this]
  rw [find_bound w hf hpf qauto]
  cases hlg : lastGiven f.name args with
  | some v =>
    rw [hlg] at hl hmem
    rw [if_pos (hmem.mpr rfl), hl]
    rfl
  | none =>
    rw [hlg] at hl hmem
    have hnot : f.name ∉ q.changed := fun h => by simpa using hmem.mp h
    rw [if_neg hnot, hl]
    cases getEnv w (upper f.name) with
    | some e => rfl
    | none =>
      cases q.viper.config.lookup f.name with
      | some v => rfl
      | none => rfl

/-- C5 (as amended), at a concrete input: `-a 5` on a machine whose config
file holds `discord_token: abc` and `application_id: 123`.  The application
ID resolves to the flag's 5, the token to the file's `abc`. -/
theorem resolved_value_precedence_witness :
    ∃ p q, init.parseFlags [⟨true, "a", .uint 5⟩] = some p ∧ initConfig fileWorld p = .done q ∧
      find fileWorld q "application_id" = some (.uint 5) ∧
      find fileWorld q "discord_token" = some (.str "abc") :=
  ⟨_, _, rfl, rfl,
    resolved_value_precedence fileWorld [⟨true, "a", .uint 5⟩] _ _
      { name := "application_id", shorthand := "a", target := .u64 .ApplicationID, defValue := .uint 0 }
      (by decide) rfl rfl (fun h => absurd h (by decide)) (fun h => absurd h (by decide)),
    resolved_value_precedence fileWorld [⟨true, "a", .uint 5⟩] _ _
      { name := "discord_token", shorthand := "t", target := .str .DiscordToken, defValue := .str "" }
      (by decide) rfl rfl (fun h => absurd h (by decide)) (fun h => absurd h (by decide))⟩

/-- C5 as stated fails in two ways.  With `DISCORD_TOKEN` set to the empty
string and `discord_token: abc` in the file, no flag given, the token resolves
to the file's `abc`, not to the value of the variable that is set.  With
`--guild_id 3 --user_id 5`, the flag `guild_id` was given the value 3 and
`guild_id` resolves to 5. -/
theorem precedence_as_stated_fails :
    (∃ q, initConfig emptyEnvWorld init = .done q ∧
      emptyEnvWorld.lookupEnv (upper "discord_token") = some "" ∧
      find emptyEnvWorld q "discord_token" = some (.str "abc") ∧
      find emptyEnvWorld q "discord_token" ≠ some (.str "")) ∧
    (∃ p q, init.parseFlags [⟨false, "guild_id", .uint 3⟩, ⟨false, "user_id", .uint 5⟩] = some p ∧
      initConfig bareWorld p = .done q ∧
      lastGiven "guild_id" [⟨false, "guild_id", .uint 3⟩, ⟨false, "user_id", .uint 5⟩] =
        some (.uint 3) ∧
      find bareWorld q "guild_id" = some (.uint 5) ∧
      find bareWorld q "guild_id" ≠ some (.uint 3)) :=
  ⟨⟨_, rfl, rfl, rfl, by decide⟩, ⟨_, _, rfl, rfl, rfl, rfl, by decide⟩⟩

/-- C6 (as amended): with no flags, no `DISCORD_TOKEN` and no `APPLICATION_ID`
in the environment, and a loaded config file with `discord_token: abc` and
`application_id: 123`, viper resolves the token to `abc` and the application
ID to 123 (the values the setup hook reads), while the fields `DiscordToken`
and `ApplicationID` of the `Configuration` record keep the flag defaults, the
empty string and 0. -/
theorem file_values_resolve_through_viper (w : World) (q : Proc)
    (hdone : initConfig w init = .done q)
    (htok : q.viper.config.lookup "discord_token" = some (.str "abc"))
    (happ : q.viper.config.lookup "application_id" = some (.uint 123))
    (henvtok : w.lookupEnv "DISCORD_TOKEN" = none)
    (henvapp : w.lookupEnv "APPLICATION_ID" = none) :
    GetString w q "discord_token" = "abc" ∧ GetUint64 w q "application_id" = 123 ∧
      q.config.DiscordToken = "" ∧ q.config.ApplicationID = 0 := by
  obtain ⟨-, qch, -, qpf, qauto, qload, -⟩ := initConfig_done hdone
  have hnone : ∀ name, name ∉ q.changed := by
    intro name
    rw [qch]
    exact List.not_mem_nil name
  have h1 : find w q "discord_token" = some (.str "abc") := by
    have := find_bound w (q := q)
      (f := { name := "discord_token", shorthand := "t", target := .str .DiscordToken, defValue := .str "" })
      (by decide) qpf qauto
    rw [if_neg (hnone _)] at this
    have he : getEnv w (upper "discord_token") = none := by
      show getEnv w "DISCORD_TOKEN" = none
      simp [getEnv, henvtok]
    simp only [he, htok] at this
    exact this
  have h2 : find w q "application_id" = some (.uint 123) := by
    have := find_bound w (q := q)
      (f := { name := "application_id", shorthand := "a", target := .u64 .ApplicationID, defValue := .uint 0 })
      (by decide) qpf qauto
    rw [if_neg (hnone _)] at this
    have he : getEnv w (upper "application_id") = none := by
      show getEnv w "APPLICATION_ID" = none
      simp [getEnv, henvapp]
    simp only [he, happ] at this
    exact this
  refine ⟨by simp [GetString, h1], by simp [GetUint64, h2], ?_, ?_⟩
  · have := qload (.str .DiscordToken) (by decide)
    simp only [Target.load, Val.str.injEq] at this
    rw [this]; rfl
  · have := qload (.u64 .ApplicationID) (by decide)
    simp only [Target.load, Val.uint.injEq] at this
    rw [this]; rfl

/-- C6 (as amended), at a concrete input: the machine of `fileWorld`. -/
theorem file_values_resolve_through_viper_witness :
    ∃ q, initConfig fileWorld init = .done q ∧
      GetString fileWorld q "discord_token" = "abc" ∧
      GetUint64 fileWorld q "application_id" = 123 ∧
      q.config.DiscordToken = "" ∧ q.config.ApplicationID = 0 :=
  ⟨_, rfl, file_values_resolve_through_viper fileWorld _ rfl rfl rfl rfl rfl⟩

/-- C6 as stated fails: with no flags, an empty environment and a config file
holding `discord_token: abc` and `application_id: 123`, configuration
resolution loads both keys into viper and leaves `config.DiscordToken` empty
and `config.ApplicationID` at 0. -/
theorem file_values_not_in_Configuration :
    ∃ q, initConfig fileWorld init = .done q ∧
      q.viper.config = [("discord_token", .str "abc"), ("application_id", .uint 123)] ∧
      q.config.DiscordToken ≠ "abc" ∧ q.config.ApplicationID ≠ 123 :=
  ⟨_, rfl, rfl, by decide, by decide⟩

/-! ## Which commands run the root's validation, and how often -/

/-- The root's statements on a ready state: one validation, one client built
from the resolved token and stored in `client`. -/
theorem hookBody_root_ready (w : World) (p : Proc) (hr : Ready w p) :
    hookBody w .root p = .done (afterRoot (GetString w p "discord_token") p) := by
  have hcond : ¬ (GetString w p "discord_token" = "" ∨
      (!IsValid (GetUint64 w p "application_id")) = true) := by
    rintro (h | h)
    · exact hr.1 h
    · rw [hr.2] at h; cases h
  simp only [hookBody, if_neg hcond, List.append_assoc, List.singleton_append, afterRoot]

theorem validations_afterRoot (tok : String) (p : Proc) :
    validations (afterRoot tok p) = validations p + 1 := by
  simp [validations, afterRoot, List.count_append]

theorem clientsBuilt_afterRoot (tok : String) (p : Proc) :
    clientsBuilt (afterRoot tok p) = clientsBuilt p ++ [tok] := by
  simp [clientsBuilt, afterRoot, List.filterMap_append]

/-- The function `callPersistentPreRun` is what `runHook` runs first. -/
theorem runHook_eq (w : World) (cmd : Command) (h : Hook) (p : Proc) :
    runHook w cmd h p = (callPersistentPreRun w cmd p).andThen (hookBody w h) := by
  cases cmd with
  | top hook => rfl
  | sub hook parent =>
    simp only [runHook, callPersistentPreRun, Command.Parent]

/-- The hook cobra picks on a hookless path is the root's. -/
theorem nearestHook_hookless (n : Nat) : nearestHook (hookless n) = some .root := by
  induction n with
  | zero => rfl
  | succ n ih => simpa [hookless, nearestHook] using ih

/-- X2: how cobra's setup step runs on a hookless path of depth `n`, from a ready
state: it returns, the client is built from the resolved token, and the root's
validation has run once, except for a direct child of the root, where it has
run twice and two clients were built. -/
theorem persistentPreRun_hookless (w : World) (n : Nat) (p : Proc) (hr : Ready w p) :
    ∃ q, persistentPreRun w (hookless n) p = .done q ∧
      q.client = some { token := GetString w p "discord_token" } ∧
      validations q = validations p + (if n = 1 then 2 else 1) ∧
      clientsBuilt q = clientsBuilt p ++
        List.replicate (if n = 1 then 2 else 1) (GetString w p "discord_token") := by
  have hroot := hookBody_root_ready w p hr
  match n with
  | 0 =>
    refine ⟨afterRoot (GetString w p "discord_token") p, ?_, rfl, ?_, ?_⟩
    · simp only [persistentPreRun, nearestHook_hookless, hookless, rootCmd, runHook]
      exact hroot
    · simp [validations_afterRoot]
    · simp [clientsBuilt_afterRoot]
  | 1 =>
    have hs : SameInputs p (afterRoot (GetString w p "discord_token") p) := ⟨rfl, rfl, rfl⟩
    have hr2 : Ready w (afterRoot (GetString w p "discord_token") p) := by
      unfold Ready
      rw [hs.GetString, hs.GetUint64]
      exact hr
    have hsecond := hookBody_root_ready w _ hr2
    rw [hs.GetString] at hsecond
    refine ⟨afterRoot (GetString w p "discord_token") (afterRoot (GetString w p "discord_token") p),
      ?_, rfl, ?_, ?_⟩
    · simp only [persistentPreRun, nearestHook_hookless, hookless, rootCmd, runHook,
        Command.PersistentPreRun, hroot, Outcome.andThen]
      exact hsecond
    · simp [validations_afterRoot]
    · simp [clientsBuilt_afterRoot, List.replicate]
  | n + 2 =>
    refine ⟨afterRoot (GetString w p "discord_token") p, ?_, rfl, ?_, ?_⟩
    · have hn := nearestHook_hookless (n + 2)
      simp only [persistentPreRun, hn]
      simp only [hookless, runHook, Command.PersistentPreRun, Outcome.andThen]
      exact hroot
    · simp [validations_afterRoot]
    · simp [clientsBuilt_afterRoot]

/-- On a path in which every child has a hook of its own, the hooks chain up to
the root: from a ready state the setup step returns with the root's validation
run exactly once and exactly one client built, from the resolved token, at any
depth. -/
theorem chained_setup (w : World) (ids : List Nat) (p : Proc) (hr : Ready w p) :
    ∃ q, persistentPreRun w (chained ids) p = .done q ∧
      q.client = some { token := GetString w p "discord_token" } ∧
      validations q = validations p + 1 ∧
      clientsBuilt q = clientsBuilt p ++ [GetString w p "discord_token"] := by
  have key : ∀ ids : List Nat, ∃ h q, (chained ids).PersistentPreRun = some h ∧
      nearestHook (chained ids) = some h ∧ runHook w (chained ids) h p = .done q ∧
      q.client = some { token := GetString w p "discord_token" } ∧
      validations q = validations p + 1 ∧
      clientsBuilt q = clientsBuilt p ++ [GetString w p "discord_token"] := by
    intro ids
    induction ids with
    | nil =>
      exact ⟨.root, afterRoot (GetString w p "discord_token") p, rfl, rfl,
        hookBody_root_ready w p hr, rfl, validations_afterRoot _ p, clientsBuilt_afterRoot _ p⟩
    | cons id ids ih =>
      obtain ⟨h, q, h1, -, h3, h4, h5, h6⟩ := ih
      refine ⟨.child id, { q with trace := q.trace ++ [Event.childSetup id] }, rfl, rfl, ?_, h4, ?_, ?_⟩
      · simp only [chained, runHook, h1, h3, Outcome.andThen, hookBody]
      · rw [← h5]; simp [validations, List.count_append]
      · rw [← h6]; simp [clientsBuilt, List.filterMap_append]
  obtain ⟨h, q, -, h2, h3, h4, h5, h6⟩ := key ids
  exact ⟨q, by simp only [persistentPreRun, h2, h3], h4, h5, h6⟩

/-- C3, the code at two failing inputs (`-t tok -a 7`, no config file).  For a
child of the root without a hook the root's validation runs twice; for a
grandchild with a hook under a child without one it does not run at all. -/
theorem root_validation_not_once :
    validations (Execute bareWorld (.sub none rootCmd)
      [⟨true, "t", .str "tok"⟩, ⟨true, "a", .uint 7⟩]).proc = 2 ∧
    validations (Execute bareWorld (.sub (some (.child 1)) (.sub none rootCmd))
      [⟨true, "t", .str "tok"⟩, ⟨true, "a", .uint 7⟩]).proc = 0 :=
  ⟨by decide, by decide⟩

/-- C2, the code at a failing input: `-t tok -a 7` with no config file,
invoking a child of the root that has no hook.  Setup succeeds, and two client
handles are constructed on the way, both from the token. -/
theorem hookless_child_builds_two_clients :
    ∃ q, Execute bareWorld (.sub none rootCmd)
        [⟨true, "t", .str "tok"⟩, ⟨true, "a", .uint 7⟩] = .done q ∧
      clientsBuilt q = ["tok", "tok"] ∧ q.client = some { token := "tok" } :=
  ⟨_, rfl, by decide, rfl⟩

/-- C4, the code at a failing input: root → child without a hook → grandchild
with a hook that calls `callPersistentPreRun`.  Invoking the grandchild runs
its own setup only: the root's hook runs zero times, no client is built, and
setup succeeds even when no token or application ID is configured at all. -/
theorem nested_hook_skips_root :
    (∃ q, Execute bareWorld (.sub (some (.child 1)) (.sub none rootCmd))
        [⟨true, "t", .str "tok"⟩, ⟨true, "a", .uint 7⟩] = .done q ∧
      validations q = 0 ∧ q.client = none ∧ Event.childSetup 1 ∈ q.trace) ∧
    (∃ q, Execute bareWorld (.sub (some (.child 1)) (.sub none rootCmd)) [] = .done q ∧
      validations q = 0 ∧ q.client = none) :=
  ⟨⟨_, rfl, by decide, rfl, by decide⟩, ⟨_, rfl, by decide, rfl⟩⟩

/-- With no `--config` flag, a home directory and no readable config file,
`initConfig` returns having attempted one read and touched nothing else the
hooks look at. -/
theorem initConfig_without_file (w : World) (p : Proc) (home : String)
    (hfile : p.config.ConfigFile = "") (hhome : w.userHomeDir = .ok home)
    (hnone : ∀ file paths name type, ∃ err, w.readInConfig file paths name type = .error err) :
    ∃ q, initConfig w p = .done q ∧ q.trace = p.trace ++ [Event.readInConfig] ∧
      q.client = p.client := by
  have hsrc : configSource w p = .done { p with viper := (Viper.SetConfigName
      (((p.viper.AddConfigPath w home).AddConfigPath w ".").SetConfigType "yaml")
      CONFIG_FILENAME) } := by
    simp [configSource, hfile, hhome]
  generalize (Viper.SetConfigName
      (((p.viper.AddConfigPath w home).AddConfigPath w ".").SetConfigType "yaml")
      CONFIG_FILENAME) = v at hsrc
  obtain ⟨err, herr⟩ := hnone v.configFile v.configPaths v.configName v.configType
  refine ⟨{ p with viper := v.AutomaticEnv, trace := p.trace ++ [Event.readInConfig] },
    ?_, rfl, rfl⟩
  simp only [initConfig, hsrc, Outcome.andThen, readConfig, Viper.ReadInConfig,
    Viper.AutomaticEnv, herr]

/-- X1: a non-empty token and a valid application ID given as flags, a home
directory and no readable config file.  Invoking the root command, or a
command below it on a path where every child has a hook that calls
`callPersistentPreRun` first, succeeds with exactly one client handle
constructed, from the token, and stored in `client`. -/
theorem flags_only_setup_succeeds (w : World) (tok : String) (app : Nat) (home : String)
    (ids : List Nat) (htok : tok ≠ "") (hlt : app < 2 ^ 64) (happ : IsValid app = true)
    (hhome : w.userHomeDir = .ok home)
    (hnone : ∀ file paths name type, ∃ err, w.readInConfig file paths name type = .error err) :
    ∃ q, Execute w (chained ids)
        [⟨false, "discord_token", .str tok⟩, ⟨false, "application_id", .uint app⟩] = .done q ∧
      clientsBuilt q = [tok] ∧ validations q = 1 ∧ q.client = some { token := tok } := by
  have hparse : init.parseFlags
      [⟨false, "discord_token", .str tok⟩, ⟨false, "application_id", .uint app⟩] =
      some { init with
        config := { init.config with DiscordToken := tok, ApplicationID := app }
        changed := ["application_id", "discord_token"] } := by
    have h1 : init.setArg ⟨false, "discord_token", .str tok⟩ =
        some { init with config := { init.config with DiscordToken := tok }
                         changed := ["discord_token"] } := rfl
    have h2 : Proc.setArg { init with config := { init.config with DiscordToken := tok }
                                      changed := ["discord_token"] }
        ⟨false, "application_id", .uint app⟩ =
        some { init with
          config := { init.config with DiscordToken := tok, ApplicationID := app }
          changed := ["application_id", "discord_token"] } := by
      have hf : findFlag init.flags ⟨false, "application_id", .uint app⟩ =
          some { name := "application_id", shorthand := "a", target := .u64 .ApplicationID,
                 defValue := .uint 0 } := rfl
      simp only [Proc.setArg, hf, Target.store]
      rw [if_pos hlt]
    simp only [Proc.parseFlags, h1, h2]
  obtain ⟨q, hq, htr, hcl⟩ := initConfig_without_file w _ home
    (show ({ init with
        config := { init.config with DiscordToken := tok, ApplicationID := app }
        changed := ["application_id", "discord_token"] } : Proc).config.ConfigFile = "" from rfl)
    hhome hnone
  obtain ⟨-, qch, -, qpf, qauto, qload, -⟩ := initConfig_done hq
  have ftok : find w q "discord_token" = some (.str tok) := by
    have := find_bound w (q := q)
      (f := { name := "discord_token", shorthand := "t", target := .str .DiscordToken,
              defValue := .str "" })
      (by decide) qpf qauto
    have hin : "discord_token" ∈ q.changed := by
      rw [qch]
      show "discord_token" ∈ ["application_id", "discord_token"]
      decide
    rw [if_pos hin, qload _ (by decide)] at this
    exact this
  have fapp : find w q "application_id" = some (.uint app) := by
    have := find_bound w (q := q)
      (f := { name := "application_id", shorthand := "a", target := .u64 .ApplicationID,
              defValue := .uint 0 })
      (by decide) qpf qauto
    have hin : "application_id" ∈ q.changed := by
      rw [qch]
      show "application_id" ∈ ["application_id", "discord_token"]
      decide
    rw [if_pos hin, qload _ (by decide)] at this
    exact this
  have gtok : GetString w q "discord_token" = tok := by
    unfold GetString
    rw [ftok]
  have gapp : GetUint64 w q "application_id" = app := by
    unfold GetUint64
    rw [fapp]
    exact Nat.mod_eq_of_lt hlt
  have hr : Ready w q := ⟨by rw [gtok]; exact htok, by rw [gapp]; exact happ⟩
  obtain ⟨r, hrun, hclient, hval, hbuilt⟩ := chained_setup w ids q hr
  refine ⟨r, ?_, ?_, ?_, ?_⟩
  · simp only [Execute, hparse, hq, Outcome.andThen, hrun]
  · rw [hbuilt, gtok]
    have : clientsBuilt q = [] := by
      simp only [clientsBuilt, htr]
      rfl
    rw [this]; rfl
  · rw [hval]
    have : validations q = 0 := by
      simp only [validations, htr]
      rfl
    rw [this]
  · rw [hclient, gtok]

/-- X1, at a concrete input: `--discord_token tok --application_id 7`, a
grandchild whose path is fully chained. -/
theorem flags_only_setup_succeeds_witness :
    ∃ q, Execute bareWorld (chained [2, 1])
        [⟨false, "discord_token", .str "tok"⟩, ⟨false, "application_id", .uint 7⟩] = .done q ∧
      clientsBuilt q = ["tok"] ∧ validations q = 1 ∧ q.client = some { token := "tok" } :=
  flags_only_setup_succeeds bareWorld "tok" 7 "/home/op" [2, 1] (by decide) (by decide) rfl rfl
    (fun _ _ _ _ => ⟨_, rfl⟩)

/-- X2, at concrete inputs: the state after `-t tok -a 7` and `initConfig`,
invoking a child and a grandchild of the root, neither with a hook. -/
theorem persistentPreRun_hookless_witness :
    (∃ q, persistentPreRun bareWorld (hookless 1)
        (Execute bareWorld (.top none) [⟨true, "t", .str "tok"⟩, ⟨true, "a", .uint 7⟩]).proc =
          .done q ∧ validations q = 2) ∧
    (∃ q, persistentPreRun bareWorld (hookless 2)
        (Execute bareWorld (.top none) [⟨true, "t", .str "tok"⟩, ⟨true, "a", .uint 7⟩]).proc =
          .done q ∧ validations q = 1) := by
  constructor
  · obtain ⟨q, h1, -, h3, -⟩ := persistentPreRun_hookless bareWorld 1 _ (show Ready bareWorld
      (Execute bareWorld (.top none) [⟨true, "t", .str "tok"⟩, ⟨true, "a", .uint 7⟩]).proc from
        ⟨by decide, by decide⟩)
    exact ⟨q, h1, h3⟩
  · obtain ⟨q, h1, -, h3, -⟩ := persistentPreRun_hookless bareWorld 2 _ (show Ready bareWorld
      (Execute bareWorld (.top none) [⟨true, "t", .str "tok"⟩, ⟨true, "a", .uint 7⟩]).proc from
        ⟨by decide, by decide⟩)
    exact ⟨q, h1, h3⟩

end DiscordCli
